import Mathlib

/-!
Verification of the Zabbix graph image downloader (src/main.py).

The Python program is shallowly embedded: pure functions become Lean
functions over `String`/`Nat`; HTTP traffic and the filesystem become
explicit environment functions; side effects become an explicit trace of
`Effect` values.  Machine-level details that the claims do not touch
(actual sockets, image bytes, thread interleavings of independent writes)
are abstracted, but every branch of the translated control flow follows
the source.
-/

namespace ZGD

/-- Timestamps as produced by `datetime.datetime.strptime(_, "%Y-%m-%d %H:%M:%S")`:
a plain record of calendar fields; the program only ever formats them back. -/
structure DateTime where
  year : Nat
  month : Nat
  day : Nat
  hour : Nat
  minute : Nat
  second : Nat
deriving DecidableEq, Repr

/-- Zero-pad a number to two digits, as `strftime` does for `%m %d %H %M %S`. -/
def pad2 (n : Nat) : String :=
  if n < 10 then "0" ++ toString n else toString n

/-- Zero-pad a number to four digits, as `strftime` does for `%Y`. -/
def pad4 (n : Nat) : String :=
  if n < 10 then "000" ++ toString n
  else if n < 100 then "00" ++ toString n
  else if n < 1000 then "0" ++ toString n
  else toString n

/-- `dt.strftime("%Y-%m-%d %H:%M:%S")` (src/main.py line 128). -/
def strftimeTs (dt : DateTime) : String :=
  pad4 dt.year ++ "-" ++ pad2 dt.month ++ "-" ++ pad2 dt.day ++ " " ++
    pad2 dt.hour ++ ":" ++ pad2 dt.minute ++ ":" ++ pad2 dt.second

/-- `f"{dt:%Y-%m-%d_%H%M%S}"` (src/main.py line 271). -/
def strftimeFile (dt : DateTime) : String :=
  pad4 dt.year ++ "-" ++ pad2 dt.month ++ "-" ++ pad2 dt.day ++ "_" ++
    pad2 dt.hour ++ pad2 dt.minute ++ pad2 dt.second

/-! ### Percent encoding: `urllib.parse.quote` with its default `safe='/'` -/

/-- The characters `urllib.parse.quote` leaves untouched: ASCII letters and
digits, `_` (95), `.` (46), `-` (45), `~` (126) and the default safe
character `/` (47). -/
def isSafeChar (c : Char) : Bool :=
  (65 ≤ c.toNat && c.toNat ≤ 90) || (97 ≤ c.toNat && c.toNat ≤ 122) ||
  (48 ≤ c.toNat && c.toNat ≤ 57) ||
  c.toNat = 95 || c.toNat = 46 || c.toNat = 45 || c.toNat = 126 || c.toNat = 47

/-- Uppercase hexadecimal digit, as in `quote`'s `'%{:02X}'` expansion. -/
def hexDig (n : Nat) : Char :=
  if n < 10 then Char.ofNat (48 + n) else Char.ofNat (55 + n)

/-- Percent-escape of one byte: `%XX` with uppercase hex. -/
def pctByte (b : Nat) : List Char := ['%', hexDig (b / 16), hexDig (b % 16)]

/-- UTF-8 encoding of a code point (as `str.encode('utf-8')` does per char). -/
def utf8Bytes (n : Nat) : List Nat :=
  if n < 128 then [n]
  else if n < 2048 then [192 + n / 64, 128 + n % 64]
  else if n < 65536 then [224 + n / 4096, 128 + (n / 64) % 64, 128 + n % 64]
  else [240 + n / 262144, 128 + (n / 4096) % 64, 128 + (n / 64) % 64, 128 + n % 64]

/-- `quote` on a single character: safe characters pass through, everything
else is UTF-8 encoded and percent-escaped byte by byte. -/
def quoteChar (c : Char) : List Char :=
  if isSafeChar c then [c] else (utf8Bytes c.toNat).flatMap pctByte

/-- `urllib.parse.quote(s)` (src/main.py line 139). -/
def quote (s : String) : String := ⟨s.data.flatMap quoteChar⟩

/-- Value of an uppercase hexadecimal digit (inverse of `hexDig` below 16). -/
def hexVal (c : Char) : Nat := if c.toNat ≤ 57 then c.toNat - 48 else c.toNat - 55

/-- Percent-decoding back to bytes; a left inverse of the percent-escaping
on the images of `quote` (the malformed cases never occur there). -/
def pctDecode : List Char → List Nat
  | [] => []
  | c :: t =>
    if c = '%' then
      match t with
      | h1 :: h2 :: t2 => (16 * hexVal h1 + hexVal h2) :: pctDecode t2
      | t2 => c.toNat :: t2.map Char.toNat
    else c.toNat :: pctDecode t

/-- Decode one UTF-8 code point from a leading byte and the remaining
stream, returning the code point and the unconsumed rest (malformed cases
never occur on encodings). -/
def utf8DecodeOne (b : Nat) (t : List Nat) : Nat × List Nat :=
  if b < 128 then (b, t)
  else if b < 224 then
    match t with
    | b1 :: t1 => ((b - 192) * 64 + (b1 - 128), t1)
    | [] => (b, [])
  else if b < 240 then
    match t with
    | b1 :: b2 :: t2 => ((b - 224) * 4096 + (b1 - 128) * 64 + (b2 - 128), t2)
    | _ => (b, [])
  else
    match t with
    | b1 :: b2 :: b3 :: t3 =>
      ((b - 240) * 262144 + (b1 - 128) * 4096 + (b2 - 128) * 64 + (b3 - 128), t3)
    | _ => (b, [])

/-- Fuel-driven UTF-8 decoding loop; each step consumes at least one byte,
so the byte count is always enough fuel. -/
def utf8DecodeAux : Nat → List Nat → List Nat
  | _, [] => []
  | 0, _ :: _ => []
  | fuel + 1, b :: t =>
    let s := utf8DecodeOne b t
    s.1 :: utf8DecodeAux fuel s.2

/-- UTF-8 decoding of a byte stream back to code points; a left inverse of
the per-character encoding. -/
def utf8DecodeList (l : List Nat) : List Nat := utf8DecodeAux l.length l

/-- UTF-8 encoding of a whole character list. -/
def utf8Encode (l : List Char) : List Nat := l.flatMap (fun c => utf8Bytes c.toNat)

/-! ### Filename sanitizer -/

/-- `FORBIDDEN_SYMBOLS` (src/main.py line 27): the nine characters
stripped from item names; 34 is the double quote and 92 the backslash. -/
def FORBIDDEN_SYMBOLS : List Char :=
  ['<', '>', ':', Char.ofNat 34, '/', Char.ofNat 92, '|', '?', '*']

/-- `s.replace(c, "")` for a single-character needle: every occurrence of
that character is removed. -/
def removeChar (s : String) (c : Char) : String := ⟨s.data.filter (fun a => a != c)⟩

/-- `sanitize_filename` (src/main.py lines 213-226): fold the removals over
the forbidden-symbol list. -/
def sanitize_filename (filename : String) : String :=
  FORBIDDEN_SYMBOLS.foldl removeChar filename

/-- A character the sanitizer is allowed to keep. -/
def notForbidden (c : Char) : Bool := !(FORBIDDEN_SYMBOLS.contains c)

/-! ### URL builder -/

/-- `generate_graph_url` (src/main.py lines 103-141): the eight query
parameters in insertion order of the Python dict, each value stringified
and percent-encoded, joined with ampersands. -/
def generate_graph_url (zabbix_host : String) (start_time end_time : DateTime)
    (item_id : String) (width height : Nat) : String :=
  let base_url := "https://" ++ zabbix_host ++ "/chart.php"
  let params : List (String × String) :=
    [("from", strftimeTs start_time),
     ("to", strftimeTs end_time),
     ("itemids[0]", item_id),
     ("type", "0"),
     ("profileIdx", "web.item.graph.filter"),
     ("profileIdx2", item_id),
     ("width", toString width),
     ("height", toString height)]
  let query_string := String.intercalate "&" (params.map (fun kv => kv.1 ++ "=" ++ quote kv.2))
  base_url ++ "?" ++ query_string

/-! ### Effects and HTTP outcomes

Side effects of the program are recorded as an explicit trace.  An
`HttpOutcome` is what one `requests.post` call to a URL does: either a
response with a status code and body, or a raised transport exception. -/

inductive HttpOutcome where
  | status (code : Nat) (body : String)
  | exc (msg : String)
deriving DecidableEq, Repr

/-- Did the outcome carry HTTP status 200? -/
def isOk (o : HttpOutcome) : Bool :=
  match o with
  | .status code _ => code == 200
  | .exc _ => false

inductive Effect where
  | apiCall (method : String) (arg : String)
  | mkdir (path : String)
  | imageRequest (url : String)
  | fileWrite (path : String)
  | log (msg : String)
deriving DecidableEq, Repr

def effIsImageRequest (e : Effect) : Bool :=
  match e with
  | .imageRequest _ => true
  | _ => false

def effIsWrite (e : Effect) : Bool :=
  match e with
  | .fileWrite _ => true
  | _ => false

def effIsLog (e : Effect) : Bool :=
  match e with
  | .log _ => true
  | _ => false

/-- The paths written by a trace. -/
def effectWrites (l : List Effect) : List String :=
  l.filterMap (fun e => match e with | .fileWrite p => some p | _ => none)

/-- Number of HTTP attempts recorded in a trace. -/
def attemptsOf (l : List Effect) : Nat := (l.filter effIsImageRequest).length

/-! ### Parallel downloader -/

/-- The body of `download_image`'s `for attempt in range(retry_count)` loop
(src/main.py lines 162-180).  `net i` is the outcome of the HTTP POST made
on attempt number `i`; `fuel` is the number of loop iterations left. -/
def download_loop (net : Nat → HttpOutcome) (image_url file_path : String) :
    Nat → Nat → Bool × List Effect
  | _, 0 => (false, [.log ("Failed to download " ++ image_url)])
  | attempt, fuel + 1 =>
    match net attempt with
    | .exc msg =>
      let r := download_loop net image_url file_path (attempt + 1) fuel
      (r.1, .imageRequest image_url :: .log ("Error downloading " ++ image_url ++ ": " ++ msg) :: r.2)
    | .status code _body =>
      if code == 200 then
        (true, [.imageRequest image_url, .fileWrite file_path,
                .log ("Successfully saved: " ++ file_path)])
      else
        let r := download_loop net image_url file_path (attempt + 1) fuel
        (r.1, .imageRequest image_url :: .log ("Got non-200 for " ++ image_url) :: r.2)

/-- `download_image` (src/main.py lines 144-180): run the loop from attempt
0 with `retry_count` iterations available; returns the success flag and the
trace of effects. -/
def download_image (net : Nat → HttpOutcome) (image_url file_path : String)
    (retry_count : Nat) : Bool × List Effect :=
  download_loop net image_url file_path 0 retry_count

/-- `download_images_multithreaded` (src/main.py lines 290-323).  Every
entry's download runs independently and the program joins all threads; the
per-entry traces are recorded entry by entry (their real-time interleaving
is irrelevant to the set of requests and writes). -/
def download_images_multithreaded (net : String → Nat → HttpOutcome) (retry : Nat)
    (download_queue : List (String × String))
    (_cookies : List (String × String)) : List Effect :=
  if download_queue.isEmpty then [.log "No images to download."]
  else
    .log "Starting download..." ::
      (download_queue.flatMap (fun kv => (download_image (net kv.1) kv.1 kv.2 retry).2) ++
        [.log "All downloads completed!"])

/-! ### API outcomes, environment -/

/-- Outcome of `get_host_id` (src/main.py lines 37-67): either one of the
caught exceptions (HTTPError, JSONDecodeError, KeyError on a missing
`result` field), or the `result` list where each record is its `hostid`
field, `none` when the record lacks one (reading it raises KeyError). -/
inductive HostFetch where
  | raised (msg : String)
  | ok (records : List (Option String))
deriving DecidableEq, Repr

/-- `{'itemid': ..., 'name': ...}` records returned by `item.get`. -/
structure Item where
  itemid : String
  name : String
deriving DecidableEq, Repr

/-- Outcome of `get_item_list` (src/main.py lines 70-100).  The caller's
`except` (line 262) catches only `requests.HTTPError` and
`json.JSONDecodeError` — those are `raised`.  A response that is valid
JSON but lacks the `result` field raises `KeyError` at line 100, which
nothing catches — that is `keyError`, and it aborts the whole run. -/
inductive ItemFetch where
  | raised (msg : String)
  | keyError (msg : String)
  | ok (items : List Item)
deriving DecidableEq, Repr

/-- Outcome of the login POST in `get_auth_cookies`: the response (or
raised transport exception) together with the cookies set on the session. -/
structure LoginResult where
  outcome : HttpOutcome
  cookies : List (String × String)

/-- The world one run of the program sees: configuration constants of
src/main.py lines 17-30 plus the behavior of the network and filesystem. -/
structure Env where
  login : LoginResult
  hostList : List String
  hostFetch : String → HostFetch
  itemFetch : String → ItemFetch
  fileExists : String → Bool
  cwd : String
  net : String → Nat → HttpOutcome
  retry : Nat
  zabbixHost : String
  startT : DateTime
  endT : DateTime
  width : Nat
  height : Nat

/-! ### Authenticator -/

/-- `get_auth_cookies` (src/main.py lines 183-210): POST the login form;
`raise_for_status` raises on any 4xx/5xx status and the surrounding caller
catches transport failures too; on success the session cookies are joined
into one `Cookie` header. -/
def get_auth_cookies (lr : LoginResult) : Except String (List (String × String)) :=
  match lr.outcome with
  | .exc msg => .error msg
  | .status code _ =>
    if 400 ≤ code then .error ("HTTP error " ++ toString code)
    else .ok [("Cookie", String.intercalate "; " (lr.cookies.map (fun kv => kv.1 ++ "=" ++ kv.2)))]

/-! ### Queue builder -/

/-- `os.path.join` for two POSIX segments, as in src/main.py lines 257 and
273: an absolute second segment replaces the first; otherwise a slash is
inserted unless the first segment is empty or already ends in one. -/
def pyJoin (a b : String) : String :=
  if b.data.head? = some '/' then b
  else if a.data = [] ∨ a.data.getLast? = some '/' then a ++ b
  else a ++ "/" ++ b

/-- The per-host output directory `os.path.join(os.getcwd(), host_name)`. -/
def host_dir (env : Env) (host_name : String) : String := pyJoin env.cwd host_name

/-- The `time_str` embedded in every filename (src/main.py line 271). -/
def time_str (env : Env) : String := strftimeFile env.startT ++ "_" ++ strftimeFile env.endT

/-- The destination filename of one item (src/main.py line 272). -/
def destFileName (env : Env) (host_name : String) (item : Item) : String :=
  host_name ++ "_" ++ sanitize_filename item.name ++ "_" ++ item.itemid ++ "_" ++
    time_str env ++ ".png"

/-- The destination path of one item (src/main.py line 273). -/
def destPath (env : Env) (host_name : String) (item : Item) : String :=
  pyJoin (host_dir env host_name) (destFileName env host_name item)

/-- The URL the queue builder generates for one item (src/main.py 281-284). -/
def itemUrl (env : Env) (item : Item) : String :=
  generate_graph_url env.zabbixHost env.startT env.endT item.itemid env.width env.height

/-- Assignment `d[k] = v` on a Python dict kept as an insertion-ordered
association list: an existing key keeps its position and gets the new
value, a new key is appended. -/
def dictInsert (d : List (String × String)) (k v : String) : List (String × String) :=
  if d.any (fun kv => kv.1 == k) then d.map (fun kv => if kv.1 == k then (k, v) else kv)
  else d ++ [(k, v)]

/-- The observable result of `create_download_queue`: the queue and trace
built so far, and — when an uncaught exception aborted the host loop — the
exception's message in `crashed`.  After a crash nothing further runs. -/
structure QueueResult where
  queue : List (String × String)
  effects : List Effect
  crashed : Option String
deriving DecidableEq, Repr

/-- The body of the item loop (src/main.py lines 266-285): skip the item if
its destination file exists, otherwise insert URL → path into the queue. -/
def processItem (env : Env) (host_name : String)
    (acc : QueueResult) (item : Item) : QueueResult :=
  let file_path := destPath env host_name item
  if env.fileExists file_path then
    ⟨acc.queue, acc.effects ++ [.log ("Skipping existing file: " ++ file_path)], acc.crashed⟩
  else
    ⟨dictInsert acc.queue (itemUrl env item) file_path, acc.effects, acc.crashed⟩

/-- The body of the host loop (src/main.py lines 241-285): resolution
failures caught at line 252, an empty result, or a missing hostid log and
skip the host, as do the two item-enumeration exception types caught at
line 262.  An item.get response lacking the `result` field raises an
uncaught KeyError (line 100): `crashed` is set and — since the loop models
an interpreter unwinding — no later host runs (first branch). -/
def processHost (env : Env) (acc : QueueResult) (host_name : String) : QueueResult :=
  match acc.crashed with
  | some _ => acc
  | none =>
    let eff1 := acc.effects ++ [.log ("Processing host: " ++ host_name), .apiCall "host.get" host_name]
    match env.hostFetch host_name with
    | .raised msg => ⟨acc.queue, eff1 ++ [.log ("Failed to get host ID for " ++ host_name ++ ": " ++ msg)], none⟩
    | .ok [] => ⟨acc.queue, eff1 ++ [.log ("No host found with name: " ++ host_name)], none⟩
    | .ok (none :: _) => ⟨acc.queue, eff1 ++ [.log ("Failed to get host ID for " ++ host_name ++ ": KeyError")], none⟩
    | .ok (some host_id :: _) =>
      let eff2 := eff1 ++ [.mkdir (host_dir env host_name), .apiCall "item.get" host_id]
      match env.itemFetch host_id with
      | .raised msg => ⟨acc.queue, eff2 ++ [.log ("Failed to get items for host " ++ host_name ++ ": " ++ msg)], none⟩
      | .keyError msg => ⟨acc.queue, eff2, some msg⟩
      | .ok items => items.foldl (processItem env host_name) ⟨acc.queue, eff2, none⟩

/-- `create_download_queue` (src/main.py lines 229-287): fold the host loop
over the configured host list.  The `cookies` argument is accepted exactly
as in the source, which never reads it. -/
def create_download_queue (env : Env) (_cookies : List (String × String)) : QueueResult :=
  env.hostList.foldl (processHost env) ⟨[], [], none⟩

/-! ### Entry point -/

/-- `main` (src/main.py lines 326-343): authenticate; any raised error is
logged and the function returns at once; otherwise build the queue and
download everything.  An uncaught KeyError from the queue builder
propagates out of `main` (its `try` wraps only the login): the interpreter
prints a traceback and dies before any download is dispatched. -/
def main_run (env : Env) : List Effect :=
  match get_auth_cookies env.login with
  | .error msg => [.log ("Authentication failed: " ++ msg)]
  | .ok cookies =>
    let qr := create_download_queue env cookies
    match qr.crashed with
    | some msg =>
      .log "Successfully authenticated with Zabbix" ::
        (qr.effects ++ [.log ("Uncaught KeyError: " ++ msg)])
    | none =>
      .log "Successfully authenticated with Zabbix" ::
        (qr.effects ++ download_images_multithreaded env.net env.retry qr.queue cookies)

/-! ### Derived views of the queue builder (used to state the claims) -/

/-- Did the login step of the run fail (non-success HTTP status or raised
transport exception)? -/
def authFailed (lr : LoginResult) : Bool :=
  match lr.outcome with
  | .exc _ => true
  | .status code _ => 400 ≤ code

/-- Does the queue builder skip a host entirely: resolution raised, no
record returned, the record lacks a hostid, or item enumeration raised one
of the exception types caught at src/main.py line 262.  An uncaught
KeyError (`ItemFetch.keyError`) is not a skip — it aborts the run. -/
def hostFails (env : Env) (host_name : String) : Bool :=
  match env.hostFetch host_name with
  | .raised _ => true
  | .ok [] => true
  | .ok (none :: _) => true
  | .ok (some host_id :: _) =>
    match env.itemFetch host_id with
    | .raised _ => true
    | .keyError _ => false
    | .ok _ => false

/-- The uncaught-exception message a host produces when the loop reaches
it: only a missing `result` field in the item.get response. -/
def hostCrashMsg (env : Env) (host_name : String) : Option String :=
  match env.hostFetch host_name with
  | .raised _ => none
  | .ok [] => none
  | .ok (none :: _) => none
  | .ok (some host_id :: _) =>
    match env.itemFetch host_id with
    | .raised _ => none
    | .keyError msg => some msg
    | .ok _ => none

/-- The (host name, item) pairs one host contributes to the queue: nothing
when the host is skipped (or crashes the run), otherwise its items whose
destination file does not exist yet. -/
def perHostItems (env : Env) (host_name : String) : List (String × Item) :=
  match env.hostFetch host_name with
  | .raised _ => []
  | .ok [] => []
  | .ok (none :: _) => []
  | .ok (some host_id :: _) =>
    match env.itemFetch host_id with
    | .raised _ => []
    | .keyError _ => []
    | .ok items =>
      (items.filter (fun it => !(env.fileExists (destPath env host_name it)))).map
        (fun it => (host_name, it))

/-- All (host name, item) pairs the run queues, in order. -/
def srcItems (env : Env) : List (String × Item) :=
  env.hostList.flatMap (perHostItems env)

/-- The queue entry one enumerated item produces. -/
def entryOf (env : Env) (x : String × Item) : String × String :=
  (itemUrl env x.2, destPath env x.1 x.2)

/-- The (URL, path) insertions the run performs, in order. -/
def srcEntries (env : Env) : List (String × String) :=
  (srcItems env).map (entryOf env)

/-- Repeated Python-dict insertion of a list of pairs. -/
def dictInsertAll (d : List (String × String)) (l : List (String × String)) :
    List (String × String) :=
  l.foldl (fun acc kv => dictInsert acc kv.1 kv.2) d

/-! ### Definitions modelled from the spec's words (for refinement claims) -/

/-- The eight query parameters exactly as the spec lists them: `from` and
`to` formatted `YYYY-MM-DD HH:MM:SS`, `itemids[0]` the item id, `type` the
constant `0`, `profileIdx` the fixed literal, `profileIdx2` the item id,
then `width` and `height`. -/
def specParams (start_time end_time : DateTime) (item_id : String)
    (width height : Nat) : List (String × String) :=
  [("from", strftimeTs start_time),
   ("to", strftimeTs end_time),
   ("itemids[0]", item_id),
   ("type", "0"),
   ("profileIdx", "web.item.graph.filter"),
   ("profileIdx2", item_id),
   ("width", toString width),
   ("height", toString height)]

/-- The destination path as the spec words it:
`<host directory>/<host>_<sanitizedItemName>_<itemId>_<start>_<end>.png`
with both bounds formatted `YYYY-MM-DD_HHMMSS`. -/
def specPath (env : Env) (host_name : String) (item : Item) : String :=
  host_dir env host_name ++ "/" ++ host_name ++ "_" ++ sanitize_filename item.name ++ "_" ++
    item.itemid ++ "_" ++ strftimeFile env.startT ++ "_" ++ strftimeFile env.endT ++ ".png"

/-- The queue insertions as the spec words them: for every successfully
resolved and enumerated host, every item whose destination file does not
already exist contributes its export URL mapped to the spec path. -/
def specEntries (env : Env) : List (String × String) :=
  env.hostList.flatMap (fun host_name =>
    match env.hostFetch host_name with
    | .raised _ => []
    | .ok [] => []
    | .ok (none :: _) => []
    | .ok (some host_id :: _) =>
      match env.itemFetch host_id with
      | .raised _ => []
      | .keyError _ => []
      | .ok items =>
        (items.filter (fun it => !(env.fileExists (specPath env host_name it)))).map
          (fun it => (itemUrl env it, specPath env host_name it)))

/-- A host name that is a plain path segment: nonempty and neither starting
nor ending with a slash (so `os.path.join` really concatenates with `/`). -/
def hostNameOk (host_name : String) : Bool :=
  !host_name.data.isEmpty && !(host_name.data.head? == some '/') &&
    !(host_name.data.getLast? == some '/')

/-- The environment of a second run of the pipeline: identical except that
a file now also exists when the first run's downloader wrote it. -/
def secondEnv (env : Env) : Env :=
  { env with
    fileExists := fun p =>
      env.fileExists p ||
        (effectWrites (download_images_multithreaded env.net env.retry
          (create_download_queue env []).queue [])).contains p }

/-! ### Concrete environments (for witnesses) -/

def dt0 : DateTime := ⟨2024, 1, 1, 0, 0, 0⟩
def dt1 : DateTime := ⟨2024, 1, 2, 0, 0, 0⟩

/-- A run whose login succeeds; `srv-a` resolves and has one item, `srv-b`
fails resolution; the network always answers 200. -/
def envB : Env where
  login := ⟨.status 200 "", [("zbx_session", "s1")]⟩
  hostList := ["srv-a", "srv-b"]
  hostFetch := fun hn => if hn == "srv-a" then .ok [some "10"] else .raised "boom"
  itemFetch := fun hid => if hid == "10" then .ok [⟨"1", "CPU"⟩] else .raised "no such host"
  fileExists := fun _ => false
  cwd := "/out"
  net := fun _ _ => .status 200 "img"
  retry := 1
  zabbixHost := "zb"
  startT := dt0
  endT := dt1
  width := 19
  height := 2

/-- A run whose login is rejected with HTTP 401. -/
def envA : Env :=
  { envB with login := ⟨.status 401 "denied", []⟩ }

/-- A run whose first host's item.get response is valid JSON without a
`result` field (the uncaught KeyError path), while the second host is
healthy. -/
def envC : Env :=
  { envB with
    hostList := ["srv-x", "srv-a"],
    hostFetch := fun hn =>
      if hn == "srv-a" then .ok [some "10"]
      else if hn == "srv-x" then .ok [some "20"]
      else .raised "boom",
    itemFetch := fun hid =>
      if hid == "10" then .ok [⟨"1", "CPU"⟩]
      else if hid == "20" then .keyError "result"
      else .raised "no such host" }

/-- An attempt-indexed network that raises once and then answers 200. -/
def netW : Nat → HttpOutcome :=
  fun i => if i == 0 then .exc "timeout" else .status 200 "img"

/-! ## Helper lemmas -/

theorem string_eq_of_data {a b : String} (h : a.data = b.data) : a = b := by
  cases a
  cases b
  exact congrArg String.mk h

theorem char_toNat_lt (c : Char) : c.toNat < 1114112 := by
  have h := c.valid
  rcases h with h | h
  · exact Nat.lt_trans h (by decide)
  · exact h.2

theorem char_toNat_inj {c d : Char} (h : c.toNat = d.toNat) : c = d := by
  have hc := Char.ofNat_toNat c
  have hd := Char.ofNat_toNat d
  rw [← hc, ← hd, h]

/-! ### Sanitizer lemmas -/

theorem foldl_filter_eq_filter_contains (syms : List Char) (l : List Char) :
    syms.foldl (fun acc c => acc.filter (fun a => a != c)) l =
      l.filter (fun a => !(syms.contains a)) := by
  induction syms generalizing l with
  | nil => simp
  | cons c cs ih =>
    simp only [List.foldl_cons, ih, List.filter_filter, List.contains_cons]
    congr 1
    funext a
    cases ha : a == c <;> cases hs : cs.contains a <;> simp [ha, hs, bne]

theorem sanitize_filename_data (s : String) :
    (sanitize_filename s).data = s.data.filter notForbidden := by
  have key : ∀ (syms : List Char) (t : String),
      (syms.foldl removeChar t).data =
        syms.foldl (fun acc c => acc.filter (fun a => a != c)) t.data := by
    intro syms
    induction syms with
    | nil => intro t; rfl
    | cons c cs ih =>
      intro t
      simpa [removeChar] using ih (removeChar t c)
  calc (sanitize_filename s).data
      = FORBIDDEN_SYMBOLS.foldl (fun acc c => acc.filter (fun a => a != c)) s.data :=
        key FORBIDDEN_SYMBOLS s
    _ = s.data.filter notForbidden := by
        rw [foldl_filter_eq_filter_contains]
        rfl

/-- C6: the sanitizer's output contains none of the nine denylisted
characters and equals the input with every occurrence of them deleted
outright (no placeholder, no truncation, no run deduplication). -/
theorem sanitize_filename_removes_exactly (s : String) :
    ((sanitize_filename s).data.all notForbidden = true) ∧
      (sanitize_filename s).data = s.data.filter notForbidden := by
  refine ⟨?_, sanitize_filename_data s⟩
  rw [sanitize_filename_data]
  simp only [List.all_eq_true]
  intro x hx
  exact (List.mem_filter.mp hx).2

/-- C7: the sanitizer is idempotent, and is the identity on every string
containing none of the nine denylisted characters. -/
theorem sanitize_filename_idempotent (s : String) :
    sanitize_filename (sanitize_filename s) = sanitize_filename s ∧
      (s.data.all notForbidden = true → sanitize_filename s = s) := by
  constructor
  · apply string_eq_of_data
    rw [sanitize_filename_data, sanitize_filename_data, List.filter_filter]
    congr 1
    funext a
    cases ha : notForbidden a <;> simp [ha]
  · intro h
    apply string_eq_of_data
    rw [sanitize_filename_data]
    exact List.filter_eq_self.mpr (List.all_eq_true.mp h)

/-- Witness for C7 at the concrete clean string "CPU". -/
theorem sanitize_filename_idempotent_witness :
    ("CPU".data.all notForbidden = true) ∧ sanitize_filename "CPU" = "CPU" :=
  ⟨by decide, (sanitize_filename_idempotent "CPU").2 (by decide)⟩

/-- C10: the queue built by `create_download_queue` is identical for any
two cookie arguments — the source accepts the parameter and never reads
it; enumeration authenticates with the bearer token alone. -/
theorem create_download_queue_cookie_independent (env : Env)
    (c1 c2 : List (String × String)) :
    (create_download_queue env c1).queue = (create_download_queue env c2).queue := rfl

/-! ### Percent-encoding lemmas -/

theorem utf8Bytes_lt (n : Nat) (hn : n < 1114112) : ∀ b ∈ utf8Bytes n, b < 256 := by
  intro b hb
  unfold utf8Bytes at hb
  split_ifs at hb with h1 h2 h3 <;> simp at hb <;> omega

theorem hexDig_ne_amp : ∀ x < 16, hexDig x ≠ '&' := by decide

theorem quoteChar_no_amp (c : Char) : '&' ∉ quoteChar c := by
  intro h
  unfold quoteChar at h
  split_ifs at h with hs
  · have hc : c = '&' := (List.mem_singleton.mp h).symm
    subst hc
    exact absurd hs (by decide)
  · obtain ⟨b, hb, hbp⟩ := List.mem_flatMap.mp h
    have hblt : b < 256 := utf8Bytes_lt c.toNat (char_toNat_lt c) b hb
    unfold pctByte at hbp
    rw [List.mem_cons, List.mem_cons, List.mem_singleton] at hbp
    rcases hbp with hbp | hbp | hbp
    · exact absurd hbp (by decide)
    · exact hexDig_ne_amp (b / 16) (by omega) hbp.symm
    · exact hexDig_ne_amp (b % 16) (by omega) hbp.symm

theorem quote_no_amp (s : String) : '&' ∉ (quote s).data := by
  intro hmem
  have hm : '&' ∈ s.data.flatMap quoteChar := hmem
  obtain ⟨c, _, hc⟩ := List.mem_flatMap.mp hm
  exact quoteChar_no_amp c hc

theorem quote_contains_amp_false (s : String) : (quote s).data.contains '&' = false := by
  cases h : (quote s).data.contains '&' with
  | false => rfl
  | true => exact absurd (List.mem_of_elem_eq_true h) (quote_no_amp s)

/-- C1: the URL builder returns exactly the base `https://<host>/chart.php?`
followed by the eight parameters of the spec, in the spec's fixed order,
each value individually percent-encoded before the ampersand join (and no
encoded value ever contains an ampersand, so the eight fields are
unambiguous). -/
theorem generate_graph_url_spec (host : String) (st et : DateTime)
    (item_id : String) (w ht : Nat) :
    (generate_graph_url host st et item_id w ht =
      "https://" ++ host ++ "/chart.php?" ++
        String.intercalate "&"
          ((specParams st et item_id w ht).map (fun kv => kv.1 ++ "=" ++ quote kv.2))) ∧
    (specParams st et item_id w ht).map Prod.fst =
      ["from", "to", "itemids[0]", "type", "profileIdx", "profileIdx2", "width", "height"] ∧
    (specParams st et item_id w ht).length = 8 ∧
    ((specParams st et item_id w ht).map (fun kv => quote kv.2)).all
      (fun v => !(v.data.contains '&')) = true := by
  refine ⟨?_, rfl, rfl, ?_⟩
  · show "https://" ++ host ++ "/chart.php" ++ "?" ++ _ = _
    rw [String.append_assoc ("https://" ++ host) "/chart.php" "?"]
    have hlit : "/chart.php" ++ "?" = "/chart.php?" := by decide
    rw [hlit]
    rfl
  · simp only [specParams, List.map, List.all, quote_contains_amp_false, Bool.not_false,
      Bool.and_self]

/-! ### Download loop lemmas -/

theorem download_loop_succ_eq (net : Nat → HttpOutcome) (u p : String) (a n : Nat) :
    download_loop net u p a (n + 1) =
      (match net a with
       | .exc msg =>
         ((download_loop net u p (a + 1) n).1,
           .imageRequest u :: .log ("Error downloading " ++ u ++ ": " ++ msg) ::
             (download_loop net u p (a + 1) n).2)
       | .status code _body =>
         if code == 200 then
           (true, [.imageRequest u, .fileWrite p, .log ("Successfully saved: " ++ p)])
         else
           ((download_loop net u p (a + 1) n).1,
             .imageRequest u :: .log ("Got non-200 for " ++ u) ::
               (download_loop net u p (a + 1) n).2)) := rfl

theorem download_loop_succ_ok (net : Nat → HttpOutcome) (u p : String) (a n : Nat)
    (h : isOk (net a) = true) :
    download_loop net u p a (n + 1) =
      (true, [.imageRequest u, .fileWrite p, .log ("Successfully saved: " ++ p)]) := by
  rw [download_loop_succ_eq]
  cases hn : net a with
  | exc m => rw [hn] at h; exact absurd h (by simp [isOk])
  | status code body =>
    rw [hn] at h
    have hc : (code == 200) = true := h
    simp [hc]

theorem download_loop_succ_fail (net : Nat → HttpOutcome) (u p : String) (a n : Nat)
    (h : isOk (net a) = false) :
    ∃ msg, download_loop net u p a (n + 1) =
      ((download_loop net u p (a + 1) n).1,
        .imageRequest u :: .log msg :: (download_loop net u p (a + 1) n).2) := by
  rw [download_loop_succ_eq]
  cases hn : net a with
  | exc m => exact ⟨"Error downloading " ++ u ++ ": " ++ m, rfl⟩
  | status code body =>
    rw [hn] at h
    have hc : (code == 200) = false := h
    simp only [hc, if_false, Bool.false_eq_true]
    exact ⟨"Got non-200 for " ++ u, rfl⟩

theorem download_loop_all_fail (net : Nat → HttpOutcome) (u p : String) :
    ∀ n a, (∀ i, a ≤ i → i < a + n → isOk (net i) = false) →
      (download_loop net u p a n).1 = false ∧
        attemptsOf (download_loop net u p a n).2 = n ∧
        effectWrites (download_loop net u p a n).2 = [] := by
  intro n
  induction n with
  | zero => intro a _; exact ⟨rfl, rfl, rfl⟩
  | succ m ih =>
    intro a hfail
    have ha : isOk (net a) = false := hfail a (Nat.le_refl a) (by omega)
    obtain ⟨msg, heq⟩ := download_loop_succ_fail net u p a m ha
    obtain ⟨h1, h2, h3⟩ := ih (a + 1) (fun i hi1 hi2 => hfail i (by omega) (by omega))
    rw [heq]
    refine ⟨h1, ?_, ?_⟩
    · simp only [attemptsOf, List.filter, effIsImageRequest] at h2 ⊢
      simpa using h2
    · simpa [effectWrites] using h3

theorem download_loop_first_ok (net : Nat → HttpOutcome) (u p : String) :
    ∀ n a K, a ≤ K → K < a + n → isOk (net K) = true →
      (∀ i, a ≤ i → i < K → isOk (net i) = false) →
      (download_loop net u p a n).1 = true ∧
        attemptsOf (download_loop net u p a n).2 = K + 1 - a ∧
        effectWrites (download_loop net u p a n).2 = [p] := by
  intro n
  induction n with
  | zero => intro a K h1 h2 _ _; omega
  | succ m ih =>
    intro a K haK hK hok hpre
    by_cases hKa : K = a
    · subst hKa
      rw [download_loop_succ_ok net u p K m hok]
      refine ⟨rfl, ?_, rfl⟩
      simp only [attemptsOf, List.filter, effIsImageRequest, effIsWrite, effIsLog,
        List.length_cons, List.length_nil]
      omega
    · have ha : isOk (net a) = false := hpre a (Nat.le_refl a) (by omega)
      obtain ⟨msg, heq⟩ := download_loop_succ_fail net u p a m ha
      obtain ⟨h1, h2, h3⟩ := ih (a + 1) K (by omega) (by omega) hok
        (fun i hi1 hi2 => hpre i (by omega) hi2)
      rw [heq]
      refine ⟨h1, ?_, ?_⟩
      · simp only [attemptsOf, List.filter, effIsImageRequest] at h2 ⊢
        simp only [List.length_cons] at h2 ⊢
        simpa using by omega
      · simpa [effectWrites] using h3

theorem download_loop_success_iff (net : Nat → HttpOutcome) (u p : String) :
    ∀ n a, (download_loop net u p a n).1 = true ↔
      ∃ i, a ≤ i ∧ i < a + attemptsOf (download_loop net u p a n).2 ∧ isOk (net i) = true := by
  intro n
  induction n with
  | zero =>
    intro a
    constructor
    · intro h; exact absurd h (by simp [download_loop])
    · intro ⟨i, h1, h2, _⟩
      have : attemptsOf (download_loop net u p a 0).2 = 0 := rfl
      omega
  | succ m ih =>
    intro a
    cases hcase : isOk (net a) with
    | true =>
      rw [download_loop_succ_ok net u p a m hcase]
      constructor
      · intro _
        refine ⟨a, Nat.le_refl a, ?_, hcase⟩
        simp only [attemptsOf, List.filter, effIsImageRequest, List.length_cons, List.length_nil]
        omega
      · intro _; rfl
    | false =>
      obtain ⟨msg, heq⟩ := download_loop_succ_fail net u p a m hcase
      rw [heq]
      have hatt : attemptsOf (Effect.imageRequest u :: Effect.log msg ::
          (download_loop net u p (a + 1) m).2) =
          attemptsOf (download_loop net u p (a + 1) m).2 + 1 := by
        simp only [attemptsOf, List.filter, effIsImageRequest, List.length_cons]
      rw [hatt]
      constructor
      · intro h
        obtain ⟨i, h1, h2, h3⟩ := (ih (a + 1)).mp h
        exact ⟨i, by omega, by omega, h3⟩
      · intro ⟨i, h1, h2, h3⟩
        have hia : i ≠ a := by
          intro he; subst he; rw [hcase] at h3; exact absurd h3 (by simp)
        exact (ih (a + 1)).mpr ⟨i, by omega, by omega, h3⟩

theorem download_loop_writes (net : Nat → HttpOutcome) (u p : String) :
    ∀ n a, effectWrites (download_loop net u p a n).2 =
      if (download_loop net u p a n).1 then [p] else [] := by
  intro n
  induction n with
  | zero => intro a; rfl
  | succ m ih =>
    intro a
    cases hcase : isOk (net a) with
    | true => rw [download_loop_succ_ok net u p a m hcase]; rfl
    | false =>
      obtain ⟨msg, heq⟩ := download_loop_succ_fail net u p a m hcase
      rw [heq]
      simpa [effectWrites] using ih (a + 1)

/-- C2: with retry ceiling `R ≥ 1`: a first success on attempt `K < R`
(after `K` failures) stops the loop with success after exactly `K + 1`
HTTP attempts and one file write; all attempts failing makes exactly `R`
attempts, reports failure and writes nothing; and the destination file is
written exactly when some performed attempt returned status 200. -/
theorem download_image_retry_policy (net : Nat → HttpOutcome) (R K : Nat)
    (u p : String) (hR : 1 ≤ R) :
    (isOk (net K) = true → K < R → (∀ i, i < K → isOk (net i) = false) →
      (download_image net u p R).1 = true ∧
        attemptsOf (download_image net u p R).2 = K + 1 ∧
        effectWrites (download_image net u p R).2 = [p]) ∧
    ((∀ i, i < R → isOk (net i) = false) →
      (download_image net u p R).1 = false ∧
        attemptsOf (download_image net u p R).2 = R ∧
        effectWrites (download_image net u p R).2 = []) ∧
    (p ∈ effectWrites (download_image net u p R).2 ↔
      ∃ i, i < attemptsOf (download_image net u p R).2 ∧ isOk (net i) = true) := by
  refine ⟨?_, ?_, ?_⟩
  · intro hok hKR hpre
    have h := download_loop_first_ok net u p R 0 K (Nat.zero_le K) (by omega) hok
      (fun i _ hi => hpre i hi)
    refine ⟨h.1, ?_, h.2.2⟩
    have h21 := h.2.1
    show attemptsOf (download_loop net u p 0 R).2 = K + 1
    omega
  · intro hall
    exact download_loop_all_fail net u p R 0 (fun i _ hi => hall i (by omega))
  · rw [show effectWrites (download_image net u p R).2 =
        if (download_image net u p R).1 then [p] else [] from download_loop_writes net u p R 0]
    have hAtt : attemptsOf (download_image net u p R).2 =
        attemptsOf (download_loop net u p 0 R).2 := rfl
    constructor
    · intro hmem
      have hsucc : (download_image net u p R).1 = true := by
        by_contra hne
        rw [Bool.not_eq_true] at hne
        rw [hne] at hmem
        simp at hmem
      obtain ⟨i, h1, h2, h3⟩ := (download_loop_success_iff net u p R 0).mp hsucc
      exact ⟨i, by omega, h3⟩
    · intro ⟨i, h1, h2⟩
      have hsucc : (download_image net u p R).1 = true :=
        (download_loop_success_iff net u p R 0).mpr ⟨i, Nat.zero_le i, by omega, h2⟩
      rw [hsucc]
      simp

/-- Witness for C2 at the concrete network `netW` (raises once, then 200),
ceiling 3, K = 1. -/
theorem download_image_retry_policy_witness :
    (1 ≤ 3) ∧ isOk (netW 1) = true ∧ (1 < 3) ∧ (∀ i, i < 1 → isOk (netW i) = false) ∧
      ((download_image netW "u" "p" 3).1 = true ∧
        attemptsOf (download_image netW "u" "p" 3).2 = 1 + 1 ∧
        effectWrites (download_image netW "u" "p" 3).2 = ["p"]) :=
  ⟨by decide, by decide, by decide, by decide,
    (download_image_retry_policy netW 3 1 "u" "p" (by decide)).1 (by decide) (by decide)
      (by decide)⟩

/-- C3: when the login fails (non-success HTTP status or transport
failure), the run emits exactly one log line about the cause and stops: no
API enumeration call, no directory creation, no image request and no file
write ever happens. -/
theorem get_auth_cookies_error (lr : LoginResult) (h : authFailed lr = true) :
    ∃ m, get_auth_cookies lr = .error m := by
  unfold get_auth_cookies
  unfold authFailed at h
  cases ho : lr.outcome with
  | exc m =>
    exact ⟨m, rfl⟩
  | status code body =>
    rw [ho] at h
    refine ⟨"HTTP error " ++ toString code, ?_⟩
    show (if 400 ≤ code then Except.error ("HTTP error " ++ toString code)
      else Except.ok [("Cookie", String.intercalate "; "
        (lr.cookies.map (fun kv => kv.1 ++ "=" ++ kv.2)))]) = _
    rw [if_pos (of_decide_eq_true h)]

theorem auth_failure_aborts (env : Env) (h : authFailed env.login = true) :
    (main_run env).all effIsLog = true ∧ ∃ msg, main_run env = [.log msg] := by
  obtain ⟨m, hm⟩ := get_auth_cookies_error env.login h
  constructor
  · unfold main_run
    rw [hm]
    rfl
  · refine ⟨"Authentication failed: " ++ m, ?_⟩
    unfold main_run
    rw [hm]

/-- Witness for C3 at the concrete environment `envA` (login rejected
with HTTP 401). -/
theorem auth_failure_aborts_witness :
    authFailed envA.login = true ∧ (main_run envA).all effIsLog = true :=
  ⟨by decide, (auth_failure_aborts envA (by decide)).1⟩

/-! ### Queue builder characterization -/

theorem flatMap_congr_mem {α β : Type} : ∀ (l : List α) (f g : α → List β),
    (∀ a ∈ l, f a = g a) → l.flatMap f = l.flatMap g := by
  intro l f g h
  induction l with
  | nil => rfl
  | cons a t ih =>
    simp only [List.flatMap_cons]
    rw [h a (List.mem_cons_self a t), ih (fun b hb => h b (List.mem_cons_of_mem a hb))]

theorem processItem_queue (env : Env) (hn : String) (acc : QueueResult) (it : Item) :
    (processItem env hn acc it).queue =
      if env.fileExists (destPath env hn it) then acc.queue
      else dictInsert acc.queue (itemUrl env it) (destPath env hn it) := by
  unfold processItem
  split <;> simp_all

theorem processItem_crashed (env : Env) (hn : String) (acc : QueueResult) (it : Item) :
    (processItem env hn acc it).crashed = acc.crashed := by
  show ((if env.fileExists (destPath env hn it) = true then
      (⟨acc.queue,
        acc.effects ++ [Effect.log ("Skipping existing file: " ++ destPath env hn it)],
        acc.crashed⟩ : QueueResult)
    else ⟨dictInsert acc.queue (itemUrl env it) (destPath env hn it), acc.effects,
      acc.crashed⟩).crashed) = acc.crashed
  split <;> rfl

theorem foldl_processItem_queue (env : Env) (hn : String) :
    ∀ (items : List Item) (acc : QueueResult),
      (items.foldl (processItem env hn) acc).queue =
        dictInsertAll acc.queue
          ((items.filter (fun it => !(env.fileExists (destPath env hn it)))).map
            (fun it => (itemUrl env it, destPath env hn it))) := by
  intro items
  induction items with
  | nil => intro acc; rfl
  | cons it rest ih =>
    intro acc
    rw [List.foldl_cons, ih]
    cases hex : env.fileExists (destPath env hn it) with
    | true =>
      have h1 : (processItem env hn acc it).queue = acc.queue := by
        rw [processItem_queue, if_pos hex]
      rw [h1, List.filter_cons_of_neg (by simp [hex])]
    | false =>
      have h1 : (processItem env hn acc it).queue =
          dictInsert acc.queue (itemUrl env it) (destPath env hn it) := by
        rw [processItem_queue, if_neg (by simp [hex])]
      rw [h1, List.filter_cons_of_pos (by simp [hex])]
      rfl

theorem foldl_processItem_crashed (env : Env) (hn : String) :
    ∀ (items : List Item) (acc : QueueResult),
      (items.foldl (processItem env hn) acc).crashed = acc.crashed := by
  intro items
  induction items with
  | nil => intro acc; rfl
  | cons it rest ih =>
    intro acc
    rw [List.foldl_cons, ih, processItem_crashed]

theorem processHost_stuck (env : Env) (acc : QueueResult) (hn : String) (m : String)
    (h : acc.crashed = some m) : processHost env acc hn = acc := by
  unfold processHost
  rw [h]

theorem processHost_crashed (env : Env) (acc : QueueResult) (hn : String) :
    (processHost env acc hn).crashed = acc.crashed.or (hostCrashMsg env hn) := by
  cases hc : acc.crashed with
  | some m =>
    rw [processHost_stuck env acc hn m hc, hc]
    rfl
  | none =>
    unfold processHost hostCrashMsg
    rw [hc]
    cases hf : env.hostFetch hn with
    | raised m => simp only [hf]; rfl
    | ok records =>
      cases records with
      | nil => simp only [hf]; rfl
      | cons r rest =>
        cases r with
        | none => simp only [hf]; rfl
        | some host_id =>
          cases hi : env.itemFetch host_id with
          | raised m => simp only [hf, hi]; rfl
          | keyError m => simp only [hf, hi]; rfl
          | ok items =>
            simp only [hf, hi]
            rw [foldl_processItem_crashed]
            rfl

theorem processHost_queue (env : Env) (acc : QueueResult) (hn : String)
    (h : acc.crashed = none) :
    (processHost env acc hn).queue =
      dictInsertAll acc.queue ((perHostItems env hn).map (entryOf env)) := by
  unfold processHost perHostItems
  rw [h]
  cases hf : env.hostFetch hn with
  | raised m => simp only [hf]; rfl
  | ok records =>
    cases records with
    | nil => simp only [hf]; rfl
    | cons r rest =>
      cases r with
      | none => simp only [hf]; rfl
      | some host_id =>
        cases hi : env.itemFetch host_id with
        | raised m => simp only [hf, hi]; rfl
        | keyError m => simp only [hf, hi]; rfl
        | ok items =>
          simp only [hf, hi]
          rw [foldl_processItem_queue]
          rw [List.map_map]
          rfl

theorem foldl_processHost_crashed (env : Env) :
    ∀ (L : List String) (acc : QueueResult),
      (L.foldl (processHost env) acc).crashed =
        L.foldl (fun o hn => o.or (hostCrashMsg env hn)) acc.crashed := by
  intro L
  induction L with
  | nil => intro acc; rfl
  | cons hn rest ih =>
    intro acc
    rw [List.foldl_cons, List.foldl_cons, ih, processHost_crashed]

theorem foldl_or_eq_none (f : String → Option String) :
    ∀ (L : List String) (o : Option String),
      L.foldl (fun o hn => o.or (f hn)) o = none → o = none := by
  intro L
  induction L with
  | nil => intro o h; exact h
  | cons a rest ih =>
    intro o h
    have h2 := ih (o.or (f a)) h
    cases o with
    | none => rfl
    | some m => exact Option.noConfusion h2

theorem foldl_processHost_queue (env : Env) :
    ∀ (L : List String) (acc : QueueResult),
      (L.foldl (processHost env) acc).crashed = none →
      (L.foldl (processHost env) acc).queue =
        dictInsertAll acc.queue ((L.flatMap (perHostItems env)).map (entryOf env)) := by
  intro L
  induction L with
  | nil => intro acc _; rfl
  | cons hn rest ih =>
    intro acc hnc
    rw [List.foldl_cons] at hnc ⊢
    have hacc1 : (processHost env acc hn).crashed = none := by
      rw [foldl_processHost_crashed] at hnc
      exact foldl_or_eq_none (hostCrashMsg env) rest _ hnc
    have hacc : acc.crashed = none := by
      rw [processHost_crashed] at hacc1
      cases hc : acc.crashed with
      | none => rfl
      | some m => rw [hc] at hacc1; exact Option.noConfusion hacc1
    rw [ih (processHost env acc hn) hnc, processHost_queue env acc hn hacc,
      List.flatMap_cons, List.map_append]
    unfold dictInsertAll
    rw [List.foldl_append]

/-- The queue a non-crashed run returns is exactly the ordered
dict-insertion of the run's (URL, path) entries. -/
theorem create_download_queue_queue (env : Env) (c : List (String × String))
    (h : (create_download_queue env c).crashed = none) :
    (create_download_queue env c).queue = dictInsertAll [] (srcEntries env) := by
  unfold create_download_queue at h ⊢
  unfold srcEntries srcItems
  exact foldl_processHost_queue env env.hostList ⟨[], [], none⟩ h

/-- The crash status of a run is the accumulated first uncaught KeyError
along the host list; it depends only on the host list and the two fetch
functions. -/
theorem create_download_queue_crashed (env : Env) (c : List (String × String)) :
    (create_download_queue env c).crashed =
      env.hostList.foldl (fun o hn => o.or (hostCrashMsg env hn)) none := by
  unfold create_download_queue
  exact foldl_processHost_crashed env env.hostList ⟨[], [], none⟩

/-! ### Dict lemmas -/

theorem dictInsert_fresh (d : List (String × String)) (k v : String)
    (h : k ∉ d.map Prod.fst) : dictInsert d k v = d ++ [(k, v)] := by
  unfold dictInsert
  rw [if_neg]
  intro hany
  obtain ⟨kv, hkv, hbeq⟩ := List.any_eq_true.mp hany
  exact h (List.mem_map.mpr ⟨kv, hkv, eq_of_beq hbeq⟩)

theorem dictInsertAll_fresh_nodup :
    ∀ (l d : List (String × String)), (l.map Prod.fst).Nodup →
      (∀ k ∈ l.map Prod.fst, k ∉ d.map Prod.fst) →
      dictInsertAll d l = d ++ l := by
  intro l
  induction l with
  | nil => intro d _ _; simp [dictInsertAll]
  | cons kv rest ih =>
    intro d hnodup hfresh
    have hk : kv.1 ∉ d.map Prod.fst :=
      hfresh kv.1 (List.mem_map.mpr ⟨kv, List.mem_cons_self kv rest, rfl⟩)
    have step : dictInsertAll d (kv :: rest) = dictInsertAll (d ++ [(kv.1, kv.2)]) rest := by
      unfold dictInsertAll
      rw [List.foldl_cons, dictInsert_fresh d kv.1 kv.2 hk]
    rw [step, ih (d ++ [(kv.1, kv.2)])]
    · simp
    · simpa using (List.nodup_cons.mp (by simpa using hnodup)).2
    · intro k hkmem
      have hne : k ≠ kv.1 := by
        intro he
        subst he
        exact (List.nodup_cons.mp (by simpa using hnodup)).1 hkmem
      intro hmem
      rw [List.map_append] at hmem
      rcases List.mem_append.mp hmem with hmem | hmem
      · exact hfresh k (List.mem_cons_of_mem kv.1 hkmem) hmem
      · simp at hmem
        exact hne hmem

/-- With pairwise-distinct URLs a non-crashed run's queue is literally the
entry list. -/
theorem create_download_queue_of_nodup (env : Env) (c : List (String × String))
    (hnc : (create_download_queue env c).crashed = none)
    (h : ((srcEntries env).map Prod.fst).Nodup) :
    (create_download_queue env c).queue = srcEntries env := by
  rw [create_download_queue_queue env c hnc,
    dictInsertAll_fresh_nodup (srcEntries env) [] h (by intro k _ hk; simp at hk)]
  rfl

/-! ### C4: per-host failure isolation and the uncaught KeyError -/

theorem perHostItems_of_fails (env : Env) (hn : String) (h : hostFails env hn = true) :
    perHostItems env hn = [] := by
  unfold hostFails at h
  unfold perHostItems
  cases hf : env.hostFetch hn with
  | raised m => simp only [hf]
  | ok records =>
    cases records with
    | nil => simp only [hf]
    | cons r rest =>
      cases r with
      | none => simp only [hf]
      | some host_id =>
        simp only [hf] at h
        cases hi : env.itemFetch host_id with
        | raised m => simp only [hf, hi]
        | keyError m =>
          rw [hi] at h
          exact absurd h (by simp)
        | ok items =>
          rw [hi] at h
          exact absurd h (by simp)

theorem hostCrashMsg_of_fails (env : Env) (hn : String) (h : hostFails env hn = true) :
    hostCrashMsg env hn = none := by
  unfold hostFails at h
  unfold hostCrashMsg
  cases hf : env.hostFetch hn with
  | raised m => simp only [hf]
  | ok records =>
    cases records with
    | nil => simp only [hf]
    | cons r rest =>
      cases r with
      | none => simp only [hf]
      | some host_id =>
        simp only [hf] at h
        cases hi : env.itemFetch host_id with
        | raised m => simp only [hf, hi]
        | keyError m =>
          rw [hi] at h
          exact absurd h (by simp)
        | ok items => simp only [hf, hi]

theorem processHost_proj (env : Env) (acc1 acc2 : QueueResult) (hn : String)
    (hq : acc1.queue = acc2.queue) (hc : acc1.crashed = acc2.crashed) :
    (processHost env acc1 hn).queue = (processHost env acc2 hn).queue ∧
      (processHost env acc1 hn).crashed = (processHost env acc2 hn).crashed := by
  constructor
  · cases hcc : acc1.crashed with
    | some m =>
      rw [processHost_stuck env acc1 hn m hcc,
        processHost_stuck env acc2 hn m (hc.symm.trans hcc)]
      exact hq
    | none =>
      rw [processHost_queue env acc1 hn hcc,
        processHost_queue env acc2 hn (hc.symm.trans hcc), hq]
  · rw [processHost_crashed, processHost_crashed, hc]

theorem foldl_processHost_filter (env : Env) (h : String) (hf : hostFails env h = true) :
    ∀ (L : List String) (acc1 acc2 : QueueResult),
      acc1.queue = acc2.queue → acc1.crashed = acc2.crashed →
      (L.foldl (processHost env) acc1).queue =
          ((L.filter (fun x => !(x == h))).foldl (processHost env) acc2).queue ∧
        (L.foldl (processHost env) acc1).crashed =
          ((L.filter (fun x => !(x == h))).foldl (processHost env) acc2).crashed := by
  intro L
  induction L with
  | nil => intro acc1 acc2 hq hc; exact ⟨hq, hc⟩
  | cons a rest ih =>
    intro acc1 acc2 hq hc
    cases hah : a == h with
    | true =>
      have ha : a = h := eq_of_beq hah
      rw [List.filter_cons_of_neg (by simp [hah]), List.foldl_cons]
      apply ih
      · cases hcc : acc1.crashed with
        | some m => rw [processHost_stuck env acc1 a m hcc]; exact hq
        | none =>
          rw [processHost_queue env acc1 a hcc, ha, perHostItems_of_fails env h hf,
            List.map_nil]
          exact hq
      · cases hcc : acc1.crashed with
        | some m => rw [processHost_stuck env acc1 a m hcc]; exact hc
        | none =>
          rw [processHost_crashed, ha, hostCrashMsg_of_fails env h hf, hcc]
          exact (hc.symm.trans hcc).symm
    | false =>
      rw [List.filter_cons_of_pos (by simp [hah]), List.foldl_cons, List.foldl_cons]
      obtain ⟨hq2, hc2⟩ := processHost_proj env acc1 acc2 a hq hc
      exact ih (processHost env acc1 a) (processHost env acc2 a) hq2 hc2

theorem foldl_or_isSome_left (f : String → Option String) :
    ∀ (L : List String) (o : Option String), o.isSome = true →
      (L.foldl (fun o hn => o.or (f hn)) o).isSome = true := by
  intro L
  induction L with
  | nil => intro o h; exact h
  | cons a rest ih =>
    intro o h
    rw [List.foldl_cons]
    apply ih
    cases o with
    | some m => rfl
    | none => exact absurd h (by simp)

theorem foldl_or_isSome_of_mem (f : String → Option String) :
    ∀ (L : List String) (o : Option String) (hn : String), hn ∈ L →
      (f hn).isSome = true →
      (L.foldl (fun o hn => o.or (f hn)) o).isSome = true := by
  intro L
  induction L with
  | nil => intro o hn hmem _; exact absurd hmem (by simp)
  | cons a rest ih =>
    intro o hn hmem hsome
    rw [List.foldl_cons]
    rcases List.mem_cons.mp hmem with he | hmem2
    · subst he
      apply foldl_or_isSome_left
      cases o with
      | some m => rfl
      | none => exact hsome
    · exact ih (o.or (f a)) hn hmem2 hsome

/-- C4 (amended): a host whose resolution fails (HTTP error, invalid JSON,
missing result field, missing hostid, or zero matches), or whose item
enumeration raises one of the two exception types the code catches (HTTP
error, invalid JSON), is skipped in isolation — queue and crash status
equal those of the run with the host removed from the configured list.
But an item.get response that lacks the `result` field raises an uncaught
KeyError, and the whole run aborts. -/
theorem create_download_queue_host_isolation (env : Env) (c : List (String × String))
    (h : String) :
    (hostFails env h = true →
      (create_download_queue env c).queue =
          (create_download_queue
            { env with hostList := env.hostList.filter (fun x => !(x == h)) } c).queue ∧
        (create_download_queue env c).crashed =
          (create_download_queue
            { env with hostList := env.hostList.filter (fun x => !(x == h)) } c).crashed) ∧
    (∀ host_id rest msg, h ∈ env.hostList →
      env.hostFetch h = .ok (some host_id :: rest) →
      env.itemFetch host_id = .keyError msg →
      (create_download_queue env c).crashed.isSome = true) := by
  constructor
  · intro hf
    exact foldl_processHost_filter env h hf env.hostList ⟨[], [], none⟩ ⟨[], [], none⟩ rfl rfl
  · intro host_id rest msg hmem hfh hik
    rw [create_download_queue_crashed]
    apply foldl_or_isSome_of_mem (hostCrashMsg env) env.hostList none h hmem
    unfold hostCrashMsg
    simp only [hfh, hik]
    rfl

/-- Counterexample to C4 as frozen: in `envC` the first host's item
enumeration fails with a missing `result` field.  The claim predicts the
host is skipped and the queue still holds the healthy second host's entry,
but the run aborts with the uncaught KeyError and yields no entry at all —
while the same run without the failing host does produce that entry. -/
theorem create_download_queue_host_isolation_counterexample :
    envC.itemFetch "20" = ItemFetch.keyError "result" ∧
      (create_download_queue envC []).crashed = some "result" ∧
      (create_download_queue envC []).queue = [] ∧
      (create_download_queue { envC with hostList := ["srv-a"] } []).queue ≠ [] :=
  ⟨by decide, by decide, by decide, by decide⟩

/-- Witness for C4: in `envB` host `srv-b` fails resolution and removing it
leaves the queue unchanged; in `envC` the reachable missing-result response
makes the run crash. -/
theorem create_download_queue_host_isolation_witness :
    (hostFails envB "srv-b" = true ∧
      (create_download_queue envB []).queue =
        (create_download_queue
          { envB with hostList := envB.hostList.filter (fun x => !(x == "srv-b")) } []).queue) ∧
    ("srv-x" ∈ envC.hostList ∧ envC.hostFetch "srv-x" = .ok [some "20"] ∧
      envC.itemFetch "20" = .keyError "result" ∧
      (create_download_queue envC []).crashed.isSome = true) :=
  ⟨⟨by decide, ((create_download_queue_host_isolation envB [] "srv-b").1 (by decide)).1⟩,
    ⟨by decide, by decide, by decide,
      (create_download_queue_host_isolation envC [] "srv-x").2 "20" [] "result"
        (by decide) (by decide) (by decide)⟩⟩

/-! ### C5: queue entries match the spec's path wording -/

theorem hostNameOk_spec (hn : String) (h : hostNameOk hn = true) :
    hn.data ≠ [] ∧ hn.data.head? ≠ some '/' ∧ hn.data.getLast? ≠ some '/' := by
  have h3 := h
  simp only [hostNameOk, Bool.and_eq_true, Bool.not_eq_true'] at h3
  obtain ⟨⟨h1, h2⟩, h3⟩ := h3
  refine ⟨?_, ?_, ?_⟩
  · exact List.isEmpty_eq_false.mp h1
  · exact beq_eq_false_iff_ne.mp h2
  · exact beq_eq_false_iff_ne.mp h3

theorem getLast?_append_ne_nil {l l' : List Char} (h : l' ≠ []) :
    (l ++ l').getLast? = l'.getLast? := by
  obtain ⟨x, hx⟩ := Option.isSome_iff_exists.mp (List.getLast?_isSome.mpr h)
  rw [List.getLast?_append, hx]
  rfl

theorem head?_append_ne_nil {l l' : List Char} (h : l ≠ []) :
    (l ++ l').head? = l.head? := by
  cases l with
  | nil => exact absurd rfl h
  | cons a t => rfl

theorem pyJoin_eq (a b : String) (hb : b.data.head? ≠ some '/')
    (ha1 : a.data ≠ []) (ha2 : a.data.getLast? ≠ some '/') :
    pyJoin a b = a ++ "/" ++ b := by
  unfold pyJoin
  rw [if_neg hb, if_neg]
  intro hor
  exact hor.elim ha1 ha2

theorem host_dir_facts (env : Env) (hn : String) (h1 : hn.data ≠ [])
    (h2 : hn.data.head? ≠ some '/') :
    (host_dir env hn).data ≠ [] ∧ (host_dir env hn).data.getLast? = hn.data.getLast? := by
  unfold host_dir pyJoin
  rw [if_neg h2]
  split_ifs with hc
  · constructor
    · rw [String.data_append]
      simp [h1]
    · rw [String.data_append]
      exact getLast?_append_ne_nil h1
  · constructor
    · rw [String.data_append]
      simp [h1]
    · rw [String.data_append]
      exact getLast?_append_ne_nil h1

theorem destFileName_head (env : Env) (hn : String) (it : Item) (h1 : hn.data ≠ []) :
    (destFileName env hn it).data.head? = hn.data.head? := by
  have hd : (destFileName env hn it).data =
      hn.data ++ ("_" ++ sanitize_filename it.name ++ "_" ++ it.itemid ++ "_" ++
        time_str env ++ ".png").data := by
    unfold destFileName
    simp [String.data_append, List.append_assoc]
  rw [hd]
  exact head?_append_ne_nil h1

theorem destPath_eq_specPath (env : Env) (hn : String) (it : Item)
    (h : hostNameOk hn = true) : destPath env hn it = specPath env hn it := by
  obtain ⟨h1, h2, h3⟩ := hostNameOk_spec hn h
  obtain ⟨hd1, hd2⟩ := host_dir_facts env hn h1 h2
  have hlast : (host_dir env hn).data.getLast? ≠ some '/' := by
    rw [hd2]; exact h3
  have hb : (destFileName env hn it).data.head? ≠ some '/' := by
    rw [destFileName_head env hn it h1]; exact h2
  unfold destPath
  rw [pyJoin_eq _ _ hb hd1 hlast]
  apply string_eq_of_data
  unfold specPath destFileName time_str
  simp [String.data_append, List.append_assoc]

theorem srcEntries_eq_specEntries (env : Env)
    (hh : env.hostList.all hostNameOk = true) : srcEntries env = specEntries env := by
  unfold srcEntries srcItems specEntries
  rw [List.map_flatMap]
  apply flatMap_congr_mem
  intro hn hmem
  have hok : hostNameOk hn = true := List.all_eq_true.mp hh hn hmem
  have hdp : ∀ it, destPath env hn it = specPath env hn it :=
    fun it => destPath_eq_specPath env hn it hok
  unfold perHostItems
  cases hf : env.hostFetch hn with
  | raised m => simp only [hf]; rfl
  | ok records =>
    cases records with
    | nil => simp only [hf]; rfl
    | cons r rest =>
      cases r with
      | none => simp only [hf]; rfl
      | some host_id =>
        cases hi : env.itemFetch host_id with
        | raised m => simp only [hf, hi]; rfl
        | keyError m => simp only [hf, hi]; rfl
        | ok items =>
          simp only [hf, hi]
          rw [List.map_map]
          have hfilter : (fun it => !env.fileExists (destPath env hn it)) =
              (fun it => !env.fileExists (specPath env hn it)) :=
            funext fun it => by rw [hdp it]
          rw [hfilter]
          apply List.map_congr_left
          intro it _


          show entryOf env (hn, it) = _
          unfold entryOf
          rw [show (hn, it).2 = it from rfl, show (hn, it).1 = hn from rfl, hdp it]

/-! ### No file is ever written by the queue builder -/

theorem processItem_no_write (env : Env) (hn : String)
    (acc : QueueResult) (it : Item)
    (h : acc.effects.all (fun e => !(effIsWrite e)) = true) :
    (processItem env hn acc it).effects.all (fun e => !(effIsWrite e)) = true := by
  show ((if env.fileExists (destPath env hn it) = true then
      (⟨acc.queue,
        acc.effects ++ [Effect.log ("Skipping existing file: " ++ destPath env hn it)],
        acc.crashed⟩ : QueueResult)
    else ⟨dictInsert acc.queue (itemUrl env it) (destPath env hn it), acc.effects,
      acc.crashed⟩).effects.all (fun e => !(effIsWrite e))) = true
  split
  · show ((acc.effects ++
      [Effect.log ("Skipping existing file: " ++ destPath env hn it)]).all
        (fun e => !(effIsWrite e))) = true
    rw [List.all_append, h, Bool.true_and]
    rfl
  · exact h

theorem foldl_processItem_no_write (env : Env) (hn : String) :
    ∀ (items : List Item) (acc : QueueResult),
      acc.effects.all (fun e => !(effIsWrite e)) = true →
      ((items.foldl (processItem env hn) acc).effects.all (fun e => !(effIsWrite e))) = true := by
  intro items
  induction items with
  | nil => intro acc h; exact h
  | cons it rest ih =>
    intro acc h
    exact ih (processItem env hn acc it) (processItem_no_write env hn acc it h)

theorem processHost_no_write (env : Env) (acc : QueueResult) (hn : String)
    (h : acc.effects.all (fun e => !(effIsWrite e)) = true) :
    (processHost env acc hn).effects.all (fun e => !(effIsWrite e)) = true := by
  cases hcr : acc.crashed with
  | some m =>
    rw [processHost_stuck env acc hn m hcr]
    exact h
  | none =>
    unfold processHost
    rw [hcr]
    cases hf : env.hostFetch hn with
    | raised m =>
      simp only [hf]
      show ((acc.effects ++
          [Effect.log ("Processing host: " ++ hn), Effect.apiCall "host.get" hn] ++
          [Effect.log ("Failed to get host ID for " ++ hn ++ ": " ++ m)]).all
            (fun e => !(effIsWrite e))) = true
      rw [List.all_append, List.all_append, h, Bool.true_and]
      rfl
    | ok records =>
      cases records with
      | nil =>
        simp only [hf]
        show ((acc.effects ++
            [Effect.log ("Processing host: " ++ hn), Effect.apiCall "host.get" hn] ++
            [Effect.log ("No host found with name: " ++ hn)]).all
              (fun e => !(effIsWrite e))) = true
        rw [List.all_append, List.all_append, h, Bool.true_and]
        rfl
      | cons r rest =>
        cases r with
        | none =>
          simp only [hf]
          show ((acc.effects ++
              [Effect.log ("Processing host: " ++ hn), Effect.apiCall "host.get" hn] ++
              [Effect.log ("Failed to get host ID for " ++ hn ++ ": KeyError")]).all
                (fun e => !(effIsWrite e))) = true
          rw [List.all_append, List.all_append, h, Bool.true_and]
          rfl
        | some host_id =>
          cases hi : env.itemFetch host_id with
          | raised m =>
            simp only [hf, hi]
            show ((acc.effects ++
                [Effect.log ("Processing host: " ++ hn), Effect.apiCall "host.get" hn] ++
                [Effect.mkdir (host_dir env hn), Effect.apiCall "item.get" host_id] ++
                [Effect.log ("Failed to get items for host " ++ hn ++ ": " ++ m)]).all
                  (fun e => !(effIsWrite e))) = true
            rw [List.all_append, List.all_append, List.all_append, h, Bool.true_and]
            rfl
          | keyError m =>
            simp only [hf, hi]
            show ((acc.effects ++
                [Effect.log ("Processing host: " ++ hn), Effect.apiCall "host.get" hn] ++
                [Effect.mkdir (host_dir env hn), Effect.apiCall "item.get" host_id]).all
                  (fun e => !(effIsWrite e))) = true
            rw [List.all_append, List.all_append, h, Bool.true_and]
            rfl
          | ok items =>
            simp only [hf, hi]
            apply foldl_processItem_no_write
            show ((acc.effects ++
                [Effect.log ("Processing host: " ++ hn), Effect.apiCall "host.get" hn] ++
                [Effect.mkdir (host_dir env hn), Effect.apiCall "item.get" host_id]).all
                  (fun e => !(effIsWrite e))) = true
            rw [List.all_append, List.all_append, h, Bool.true_and]
            rfl

theorem create_download_queue_no_write (env : Env) (c : List (String × String)) :
    (create_download_queue env c).effects.all (fun e => !(effIsWrite e)) = true := by
  unfold create_download_queue
  have aux : ∀ (L : List String) (acc : QueueResult),
      acc.effects.all (fun e => !(effIsWrite e)) = true →
      ((L.foldl (processHost env) acc).effects.all (fun e => !(effIsWrite e))) = true := by
    intro L
    induction L with
    | nil => intro acc h; exact h
    | cons hn rest ih =>
      intro acc h
      exact ih (processHost env acc hn) (processHost_no_write env acc hn h)
  exact aux env.hostList ⟨[], [], none⟩ rfl

/-- C5: in a run that does not hit the uncaught KeyError, under
plain-segment host names the queue is exactly the ordered dict-insertion
of the spec-worded entries — for each enumerated item with no pre-existing
destination file, its export URL maps to
`<host directory>/<host>_<sanitizedItemName>_<itemId>_<start>_<end>.png`;
items whose file exists contribute nothing, and the queue builder performs
no file write at all (existing files are untouched). -/
theorem create_download_queue_spec_entries (env : Env) (c : List (String × String))
    (hh : env.hostList.all hostNameOk = true)
    (hnc : (create_download_queue env c).crashed = none) :
    (create_download_queue env c).queue = dictInsertAll [] (specEntries env) ∧
      (create_download_queue env c).effects.all (fun e => !(effIsWrite e)) = true := by
  refine ⟨?_, create_download_queue_no_write env c⟩
  rw [create_download_queue_queue env c hnc, srcEntries_eq_specEntries env hh]

/-- Witness for C5 at the concrete environment `envB`. -/
theorem create_download_queue_spec_entries_witness :
    (envB.hostList.all hostNameOk = true ∧
      (create_download_queue envB []).crashed = none) ∧
      (create_download_queue envB []).queue = dictInsertAll [] (specEntries envB) :=
  ⟨⟨by decide, by decide⟩,
    (create_download_queue_spec_entries envB [] (by decide) (by decide)).1⟩

/-! ### Injectivity of the percent encoding -/

theorem hexVal_hexDig : ∀ x < 16, hexVal (hexDig x) = x := by decide

theorem pctDecode_cons (c : Char) (t : List Char) (hc : c ≠ '%') :
    pctDecode (c :: t) = c.toNat :: pctDecode t := by
  conv_lhs => rw [pctDecode.eq_def]
  dsimp only
  rw [if_neg hc]

theorem pctDecode_pctByte (b : Nat) (hb : b < 256) (rest : List Char) :
    pctDecode (pctByte b ++ rest) = b :: pctDecode rest := by
  show pctDecode ('%' :: hexDig (b / 16) :: hexDig (b % 16) :: rest) = _
  conv_lhs => rw [pctDecode.eq_def]
  dsimp only
  rw [if_pos rfl]
  have e1 : hexVal (hexDig (b / 16)) = b / 16 := hexVal_hexDig (b / 16) (by omega)
  have e2 : hexVal (hexDig (b % 16)) = b % 16 := hexVal_hexDig (b % 16) (by omega)
  rw [e1, e2]
  congr 1
  omega

theorem isSafeChar_facts (c : Char) (h : isSafeChar c = true) :
    c.toNat < 128 ∧ c ≠ '%' := by
  simp only [isSafeChar, Bool.or_eq_true, Bool.and_eq_true, decide_eq_true_eq] at h
  have hne : c.toNat ≠ 37 := by omega
  have hlt : c.toNat < 128 := by omega
  refine ⟨hlt, ?_⟩
  intro he
  apply hne
  rw [he]
  decide

theorem utf8Bytes_small (n : Nat) (h : n < 128) : utf8Bytes n = [n] := by
  unfold utf8Bytes
  rw [if_pos h]

theorem pctDecode_flatMap_pctByte :
    ∀ (bs : List Nat), (∀ b ∈ bs, b < 256) → ∀ rest,
      pctDecode (bs.flatMap pctByte ++ rest) = bs ++ pctDecode rest := by
  intro bs
  induction bs with
  | nil => intro _ rest; simp
  | cons b t ih =>
    intro hb rest
    rw [List.flatMap_cons, List.append_assoc,
      pctDecode_pctByte b (hb b (List.mem_cons_self b t)) _,
      ih (fun x hx => hb x (List.mem_cons_of_mem b hx)) rest]
    rfl

theorem pctDecode_quoteChar (c : Char) (rest : List Char) :
    pctDecode (quoteChar c ++ rest) = utf8Bytes c.toNat ++ pctDecode rest := by
  unfold quoteChar
  split_ifs with hs
  · obtain ⟨hlt, hne⟩ := isSafeChar_facts c hs
    rw [List.singleton_append, pctDecode_cons c rest hne, utf8Bytes_small c.toNat hlt]
    rfl
  · exact pctDecode_flatMap_pctByte (utf8Bytes c.toNat)
      (utf8Bytes_lt c.toNat (char_toNat_lt c)) rest

theorem pctDecode_quote (l : List Char) :
    pctDecode (l.flatMap quoteChar) = utf8Encode l := by
  induction l with
  | nil => rfl
  | cons c t ih =>
    rw [List.flatMap_cons, pctDecode_quoteChar c _, ih]
    rfl

theorem utf8DecodeOne_utf8Bytes (n : Nat) (h : n < 1114112) (rest : List Nat) :
    ∃ b bs, utf8Bytes n = b :: bs ∧ bs.length + 1 = (utf8Bytes n).length ∧
      utf8DecodeOne b (bs ++ rest) = (n, rest) := by
  unfold utf8Bytes
  split_ifs with h1 h2 h3
  · refine ⟨n, [], rfl, rfl, ?_⟩
    unfold utf8DecodeOne
    rw [if_pos h1]
    rfl
  · refine ⟨192 + n / 64, [128 + n % 64], rfl, rfl, ?_⟩
    unfold utf8DecodeOne
    rw [if_neg (by omega), if_pos (by omega)]
    dsimp only [List.cons_append, List.nil_append]
    rw [show (192 + n / 64 - 192) * 64 + (128 + n % 64 - 128) = n by omega]
  · refine ⟨224 + n / 4096, [128 + n / 64 % 64, 128 + n % 64], rfl, rfl, ?_⟩
    unfold utf8DecodeOne
    rw [if_neg (by omega), if_neg (by omega), if_pos (by omega)]
    dsimp only [List.cons_append, List.nil_append]
    rw [show (224 + n / 4096 - 224) * 4096 + (128 + n / 64 % 64 - 128) * 64 +
      (128 + n % 64 - 128) = n by omega]
  · refine ⟨240 + n / 262144, [128 + n / 4096 % 64, 128 + n / 64 % 64, 128 + n % 64],
      rfl, rfl, ?_⟩
    unfold utf8DecodeOne
    rw [if_neg (by omega), if_neg (by omega), if_neg (by omega)]
    dsimp only [List.cons_append, List.nil_append]
    rw [show (240 + n / 262144 - 240) * 262144 + (128 + n / 4096 % 64 - 128) * 4096 +
      (128 + n / 64 % 64 - 128) * 64 + (128 + n % 64 - 128) = n by omega]

theorem utf8DecodeAux_encode :
    ∀ (l : List Char) (fuel : Nat), (utf8Encode l).length ≤ fuel →
      utf8DecodeAux fuel (utf8Encode l) = l.map Char.toNat := by
  intro l
  induction l with
  | nil => intro fuel _; cases fuel <;> rfl
  | cons c t ih =>
    intro fuel hf
    obtain ⟨b, bs, hbs, hlen, hdec⟩ :=
      utf8DecodeOne_utf8Bytes c.toNat (char_toNat_lt c) (utf8Encode t)
    have henc : utf8Encode (c :: t) = b :: (bs ++ utf8Encode t) := by
      show utf8Bytes c.toNat ++ utf8Encode t = _
      rw [hbs]
      rfl
    rw [henc] at hf ⊢
    cases fuel with
    | zero => simp at hf
    | succ f =>
      have hrest : (utf8Encode t).length ≤ f := by
        simp only [List.length_cons, List.length_append] at hf
        omega
      show (utf8DecodeOne b (bs ++ utf8Encode t)).1 ::
        utf8DecodeAux f (utf8DecodeOne b (bs ++ utf8Encode t)).2 = _
      rw [hdec]
      dsimp only
      rw [ih f hrest]
      rfl

theorem utf8DecodeList_encode (l : List Char) :
    utf8DecodeList (utf8Encode l) = l.map Char.toNat :=
  utf8DecodeAux_encode l (utf8Encode l).length (Nat.le_refl _)

theorem quote_injective {s t : String} (h : quote s = quote t) : s = t := by
  have hdata : s.data.flatMap quoteChar = t.data.flatMap quoteChar := congrArg String.data h
  have h2 := congrArg pctDecode hdata
  rw [pctDecode_quote, pctDecode_quote] at h2
  have h3 := congrArg utf8DecodeList h2
  rw [utf8DecodeList_encode, utf8DecodeList_encode] at h3
  apply string_eq_of_data
  exact List.map_injective_iff.mpr (fun a b hab => char_toNat_inj hab) h3

/-! ### Injectivity of the URL builder in the item id -/

theorem takeWhile_append_amp (l r : List Char)
    (h : ∀ x ∈ l, (x != '&') = true) :
    List.takeWhile (fun x => x != '&') (l ++ '&' :: r) = l := by
  induction l with
  | nil => simp [List.takeWhile]
  | cons a t ih =>
    rw [List.cons_append, List.takeWhile_cons, if_pos (h a (List.mem_cons_self a t)),
      ih (fun x hx => h x (List.mem_cons_of_mem a hx))]

theorem quote_data_no_amp (s : String) : ∀ x ∈ (quote s).data, (x != '&') = true := by
  intro x hx
  have hne : x ≠ '&' := fun he => quote_no_amp s (he ▸ hx)
  simp [bne, hne]

theorem intercalate_eight (a1 a2 a3 a4 a5 a6 a7 a8 : String) :
    String.intercalate "&" [a1, a2, a3, a4, a5, a6, a7, a8] =
      a1 ++ "&" ++ a2 ++ "&" ++ a3 ++ "&" ++ a4 ++ "&" ++ a5 ++ "&" ++ a6 ++ "&" ++ a7 ++
        "&" ++ a8 := rfl

theorem generate_graph_url_inj (host : String) (st et : DateTime) (w ht : Nat)
    (id1 id2 : String)
    (h : generate_graph_url host st et id1 w ht = generate_graph_url host st et id2 w ht) :
    id1 = id2 := by
  have hexp : ∀ id : String, generate_graph_url host st et id w ht =
      "https://" ++ host ++ "/chart.php" ++ "?" ++
        (("from" ++ "=" ++ quote (strftimeTs st)) ++ "&" ++
          ("to" ++ "=" ++ quote (strftimeTs et)) ++ "&" ++
          ("itemids[0]" ++ "=" ++ quote id) ++ "&" ++
          ("type" ++ "=" ++ quote "0") ++ "&" ++
          ("profileIdx" ++ "=" ++ quote "web.item.graph.filter") ++ "&" ++
          ("profileIdx2" ++ "=" ++ quote id) ++ "&" ++
          ("width" ++ "=" ++ quote (toString w)) ++ "&" ++
          ("height" ++ "=" ++ quote (toString ht))) := by
    intro id
    show _ ++ "?" ++ String.intercalate "&" _ = _
    rw [List.map_cons, List.map_cons, List.map_cons, List.map_cons, List.map_cons,
      List.map_cons, List.map_cons, List.map_cons, List.map_nil, intercalate_eight]
  rw [hexp id1, hexp id2] at h
  have hamp : ("&" : String).data = ['&'] := rfl
  have hd := congrArg String.data h
  simp only [String.data_append, hamp, List.cons_append, List.nil_append,
    List.append_assoc] at hd
  simp only [List.cons.injEq, true_and] at hd
  replace hd := List.append_cancel_left hd
  simp only [List.cons.injEq, true_and] at hd
  replace hd := List.append_cancel_left hd
  simp only [List.cons.injEq, true_and] at hd
  replace hd := List.append_cancel_left hd
  simp only [List.cons.injEq, true_and] at hd
  have htw := congrArg (List.takeWhile (fun x => x != '&')) hd
  rw [takeWhile_append_amp _ _ (quote_data_no_amp id1),
    takeWhile_append_amp _ _ (quote_data_no_amp id2)] at htw
  exact quote_injective (string_eq_of_data htw)

/-- C9: for a fixed server host, time range and dimensions the URL builder
is injective in the item id, and consequently a run whose enumerated item
ids are pairwise distinct loses no entry to the URL-keyed dict: the queue
has exactly one entry per queued item. -/
theorem url_injective_in_item_id :
    (∀ (host : String) (st et : DateTime) (w ht : Nat) (id1 id2 : String),
      generate_graph_url host st et id1 w ht = generate_graph_url host st et id2 w ht →
        id1 = id2) ∧
    (∀ env : Env, ((srcItems env).map (fun x => x.2.itemid)).Nodup →
      (create_download_queue env []).crashed = none →
      (create_download_queue env []).queue.length = (srcEntries env).length) := by
  constructor
  · exact fun host st et w ht id1 id2 h => generate_graph_url_inj host st et w ht id1 id2 h
  · intro env hids hnc
    have hkeys : ((srcEntries env).map Prod.fst).Nodup := by
      unfold srcEntries
      rw [List.map_map]
      have hfun : (Prod.fst ∘ entryOf env) =
          (fun id => generate_graph_url env.zabbixHost env.startT env.endT id
            env.width env.height) ∘ (fun x : String × Item => x.2.itemid) := rfl
      rw [hfun, ← List.map_map]
      exact List.Nodup.map
        (fun a b hab =>
          generate_graph_url_inj env.zabbixHost env.startT env.endT env.width env.height
            a b hab)
        hids
    rw [create_download_queue_of_nodup env [] hnc hkeys]

/-- Witness for C9 at the concrete environment `envB` and item id 7. -/
theorem url_injective_in_item_id_witness :
    (generate_graph_url "zb" dt0 dt1 "7" 19 2 = generate_graph_url "zb" dt0 dt1 "7" 19 2 ∧
      ("7" : String) = "7") ∧
    (((srcItems envB).map (fun x => x.2.itemid)).Nodup ∧
      (create_download_queue envB []).crashed = none ∧
      (create_download_queue envB []).queue.length = (srcEntries envB).length) :=
  ⟨⟨rfl, url_injective_in_item_id.1 "zb" dt0 dt1 19 2 "7" "7" rfl⟩,
    ⟨by decide, by decide, url_injective_in_item_id.2 envB (by decide) (by decide)⟩⟩

/-! ### C8: idempotence of a second run -/

theorem download_loop_fail_attempts (net : Nat → HttpOutcome) (u p : String) :
    ∀ n a, (download_loop net u p a n).1 = false →
      attemptsOf (download_loop net u p a n).2 = n := by
  intro n
  induction n with
  | zero => intro a _; rfl
  | succ m ih =>
    intro a hfail
    cases hcase : isOk (net a) with
    | true =>
      rw [download_loop_succ_ok net u p a m hcase] at hfail
      exact absurd hfail (by simp)
    | false =>
      obtain ⟨msg, heq⟩ := download_loop_succ_fail net u p a m hcase
      rw [heq] at hfail ⊢
      have := ih (a + 1) hfail
      simp only [attemptsOf, List.filter, effIsImageRequest, List.length_cons] at this ⊢
      omega

theorem download_image_success_of_ok (net : Nat → HttpOutcome) (u p : String) (R : Nat)
    (h : ∃ i, i < R ∧ isOk (net i) = true) : (download_image net u p R).1 = true := by
  by_contra hne
  rw [Bool.not_eq_true] at hne
  have hatt : attemptsOf (download_loop net u p 0 R).2 = R :=
    download_loop_fail_attempts net u p R 0 hne
  obtain ⟨i, hiR, hok⟩ := h
  have hs : (download_loop net u p 0 R).1 = true :=
    (download_loop_success_iff net u p R 0).mpr ⟨i, Nat.zero_le i, by omega, hok⟩
  rw [show (download_image net u p R).1 = (download_loop net u p 0 R).1 from rfl, hs] at hne
  exact absurd hne (by simp)

theorem effectWrites_flatMap {α : Type} (f : α → List Effect) :
    ∀ l : List α, effectWrites (l.flatMap f) = l.flatMap (fun a => effectWrites (f a)) := by
  intro l
  induction l with
  | nil => rfl
  | cons a t ih =>
    rw [List.flatMap_cons, List.flatMap_cons, ← ih]
    unfold effectWrites
    rw [List.filterMap_append]

theorem mem_writes_of_success (net : String → Nat → HttpOutcome) (R : Nat)
    (q : List (String × String)) (kv : String × String) (hkv : kv ∈ q)
    (hok : ∃ i, i < R ∧ isOk (net kv.1 i) = true) :
    kv.2 ∈ effectWrites (download_images_multithreaded net R q []) := by
  have hne : q.isEmpty = false := by
    cases q with
    | nil => simp at hkv
    | cons a t => rfl
  unfold download_images_multithreaded
  rw [if_neg (by simp [hne])]
  show kv.2 ∈ effectWrites (.log "Starting download..." ::
    (q.flatMap (fun kv => (download_image (net kv.1) kv.1 kv.2 R).2) ++
      [.log "All downloads completed!"]))
  have hw : effectWrites (Effect.log "Starting download..." ::
      (q.flatMap (fun kv => (download_image (net kv.1) kv.1 kv.2 R).2) ++
        [Effect.log "All downloads completed!"])) =
      effectWrites (q.flatMap (fun kv => (download_image (net kv.1) kv.1 kv.2 R).2)) ++
        effectWrites [Effect.log "All downloads completed!"] := by
    unfold effectWrites
    rw [List.filterMap_cons, List.filterMap_append]
  rw [hw, effectWrites_flatMap]
  apply List.mem_append_left
  apply List.mem_flatMap.mpr
  refine ⟨kv, hkv, ?_⟩
  have hsucc := download_image_success_of_ok (net kv.1) kv.1 kv.2 R hok
  have hwr : effectWrites (download_image (net kv.1) kv.1 kv.2 R).2 = [kv.2] := by
    rw [show (download_image (net kv.1) kv.1 kv.2 R).2 =
      (download_loop (net kv.1) kv.1 kv.2 0 R).2 from rfl, download_loop_writes,
      if_pos (show (download_loop (net kv.1) kv.1 kv.2 0 R).1 = true from hsucc)]
  rw [hwr]
  exact List.mem_singleton.mpr rfl

theorem mem_srcEntries (env : Env) (hn : String) (host_id : String)
    (rest : List (Option String)) (items : List Item) (it : Item)
    (hnmem : hn ∈ env.hostList)
    (hf : env.hostFetch hn = .ok (some host_id :: rest))
    (hi : env.itemFetch host_id = .ok items)
    (hit : it ∈ items)
    (hex : env.fileExists (destPath env hn it) = false) :
    (itemUrl env it, destPath env hn it) ∈ srcEntries env := by
  unfold srcEntries srcItems
  apply List.mem_map.mpr
  refine ⟨(hn, it), ?_, rfl⟩
  apply List.mem_flatMap.mpr
  refine ⟨hn, hnmem, ?_⟩
  unfold perHostItems
  simp only [hf, hi]
  apply List.mem_map.mpr
  refine ⟨it, ?_, rfl⟩
  apply List.mem_filter.mpr
  exact ⟨hit, by simp [hex]⟩

/-- C8: with the spec's invariant that queued URLs are pairwise distinct,
the first run completing without the uncaught KeyError, and every queued
download succeeding within the retry ceiling, a second run of the queue
builder against the filesystem left by the first run's downloader produces
an empty queue, and its downloader then performs zero HTTP attempts — no
image is fetched twice. -/
theorem second_run_empty_queue (env : Env)
    (hkeys : ((srcEntries env).map Prod.fst).Nodup)
    (hnc : (create_download_queue env []).crashed = none)
    (hsucc : ∀ kv ∈ (create_download_queue env []).queue,
      ∃ i, i < env.retry ∧ isOk (env.net kv.1 i) = true) :
    (create_download_queue (secondEnv env) []).queue = [] ∧
      attemptsOf (download_images_multithreaded (secondEnv env).net (secondEnv env).retry
        (create_download_queue (secondEnv env) []).queue []) = 0 := by
  have hq1 : (create_download_queue env []).queue = srcEntries env :=
    create_download_queue_of_nodup env [] hnc hkeys
  have hnc2 : (create_download_queue (secondEnv env) []).crashed = none := by
    rw [create_download_queue_crashed]
    rw [create_download_queue_crashed] at hnc
    exact hnc
  have e1 : (secondEnv env).hostFetch = env.hostFetch := rfl
  have e2 : (secondEnv env).itemFetch = env.itemFetch := rfl
  have e3 : destPath (secondEnv env) = destPath env := rfl
  have hper : ∀ hn ∈ env.hostList, perHostItems (secondEnv env) hn = [] := by
    intro hn hnmem
    unfold perHostItems
    rw [e1, e2, e3]
    cases hf : env.hostFetch hn with
    | raised m => simp only [hf]
    | ok records =>
      cases records with
      | nil => simp only [hf]
      | cons r rest =>
        cases r with
        | none => simp only [hf]
        | some host_id =>
          cases hi : env.itemFetch host_id with
          | raised m => simp only [hf, hi]
          | keyError m => simp only [hf, hi]
          | ok items =>
            simp only [hf, hi]
            rw [List.map_eq_nil_iff, List.filter_eq_nil_iff]
            intro it hit hcontra
            have hfalse : (secondEnv env).fileExists (destPath env hn it) = false := by
              simpa using hcontra
            have htrue : (secondEnv env).fileExists (destPath env hn it) = true := by
              show (env.fileExists (destPath env hn it) ||
                (effectWrites (download_images_multithreaded env.net env.retry
                  (create_download_queue env []).queue [])).contains
                    (destPath env hn it)) = true
              cases henv : env.fileExists (destPath env hn it) with
              | true => rfl
              | false =>
                rw [Bool.false_or]
                have hmem := mem_srcEntries env hn host_id rest items it hnmem hf hi hit henv
                rw [← hq1] at hmem
                have hok := hsucc _ hmem
                have hw := mem_writes_of_success env.net env.retry
                  (create_download_queue env []).queue _ hmem hok
                exact List.elem_eq_true_of_mem hw
            rw [htrue] at hfalse
            exact absurd hfalse (by simp)
  have hsrc2 : srcEntries (secondEnv env) = [] := by
    unfold srcEntries srcItems
    show ((env.hostList.flatMap (perHostItems (secondEnv env))).map
      (entryOf (secondEnv env))) = []
    rw [flatMap_congr_mem env.hostList (perHostItems (secondEnv env))
      (fun _ => ([] : List (String × Item))) hper]
    simp
  have hq2 : (create_download_queue (secondEnv env) []).queue = [] := by
    rw [create_download_queue_queue (secondEnv env) [] hnc2, hsrc2]
    rfl
  refine ⟨hq2, ?_⟩
  rw [hq2]
  rfl

/-- Witness for C8 at the concrete environment `envB` (whose single queued
download succeeds on its first attempt). -/
theorem second_run_empty_queue_witness :
    (((srcEntries envB).map Prod.fst).Nodup ∧
      (create_download_queue envB []).crashed = none) ∧
      (create_download_queue (secondEnv envB) []).queue = [] :=
  ⟨⟨by decide, by decide⟩,
    (second_run_empty_queue envB (by decide) (by decide)
      (fun kv _ => ⟨0, Nat.zero_lt_one, rfl⟩)).1⟩

end ZGD
